import Mathlib

/-!
Shallow embedding of the HAL Contract v2 reference implementation
(`hal_contract/backend.py`): job statuses, gate sets, topologies,
validation results, measurement counts, execution results, and the
default `wait` polling loop of the `Backend` abstract base class.

Python dictionaries are modelled as association lists (first match wins,
as in `dict` semantics when keys are unique); Python `int` is modelled
as `Int`; Python `float` division of counts is modelled over `Rat`.
The abstract backend of `wait` is modelled by the sequence of statuses
its `status(jobId)` calls return (a function `Nat → JobStatus` giving
the status observed at the i-th poll) together with the value that
`result(jobId)` would return.
-/

namespace HalContract

/-- Status of a job (`JobStatus` enum in `backend.py`). -/
inductive JobStatus where
  | QUEUED
  | RUNNING
  | COMPLETED
  | FAILED
  | CANCELLED
deriving DecidableEq, Repr

/-- `JobStatus.is_terminal`: `self in (COMPLETED, FAILED, CANCELLED)`. -/
def JobStatus.is_terminal : JobStatus → Bool
  | .COMPLETED => true
  | .FAILED => true
  | .CANCELLED => true
  | _ => false

/-- `JobStatus.is_pending`: `self in (QUEUED, RUNNING)`. -/
def JobStatus.is_pending : JobStatus → Bool
  | .QUEUED => true
  | .RUNNING => true
  | _ => false

/-- `JobStatus.is_success`: `self is JobStatus.COMPLETED`. -/
def JobStatus.is_success : JobStatus → Bool
  | .COMPLETED => true
  | _ => false

/-- Gate set supported by a backend (`GateSet` dataclass). -/
structure GateSet where
  single_qubit : List String := []
  two_qubit : List String := []
  three_qubit : List String := []
  native : List String := []
deriving DecidableEq, Repr

/-- `GateSet.contains`: membership in any arity bucket
(`gate in self.single_qubit or gate in self.two_qubit or gate in self.three_qubit`). -/
def GateSet.contains (g : GateSet) (gate : String) : Bool :=
  g.single_qubit.contains gate || g.two_qubit.contains gate || g.three_qubit.contains gate

/-- `GateSet.is_native`: `if not self.native: return self.contains(gate); return gate in self.native`. -/
def GateSet.is_native (g : GateSet) (gate : String) : Bool :=
  if g.native.isEmpty then g.contains gate else g.native.contains gate

/-- `GateSet.iqm()` preset. -/
def GateSet.iqm : GateSet :=
  { single_qubit := ["prx"]
    two_qubit := ["cz"]
    native := ["prx", "cz"] }

/-- `GateSet.universal()` preset (empty `native`). -/
def GateSet.universal : GateSet :=
  { single_qubit := ["id", "x", "y", "z", "h", "s", "sdg", "t", "tdg",
                     "sx", "sxdg", "rx", "ry", "rz", "p", "u", "prx"]
    two_qubit := ["cx", "cy", "cz", "ch", "swap", "iswap",
                  "crx", "cry", "crz", "cp", "rxx", "ryy", "rzz"]
    three_qubit := ["ccx", "cswap"] }

/-- Kind of qubit topology (`TopologyKind` enum). -/
inductive TopologyKind where
  | FULLY_CONNECTED
  | LINEAR
  | STAR
  | GRID
  | HEAVY_HEX
  | CUSTOM
  | NEUTRAL_ATOM
deriving DecidableEq, Repr

/-- Qubit connectivity topology (`Topology` dataclass): a kind tag plus an
edge list over qubit indices. -/
structure Topology where
  kind : TopologyKind
  edges : List (Nat × Nat) := []
deriving DecidableEq, Repr

/-- `Topology.is_connected`: `any((a == q1 and b == q2) or (a == q2 and b == q1) for a, b in self.edges)`. -/
def Topology.is_connected (t : Topology) (q1 q2 : Nat) : Bool :=
  t.edges.any (fun e => (e.1 == q1 && e.2 == q2) || (e.1 == q2 && e.2 == q1))

/-- `Topology.grid(rows, cols)`: for each `r in range(rows)`, `c in range(cols)`,
with `idx = r * cols + c`, append `(idx, idx + 1)` when `c + 1 < cols` and
`(idx, idx + cols)` when `r + 1 < rows`. -/
def Topology.grid (rows cols : Nat) : Topology :=
  { kind := .GRID
    edges :=
      (List.range rows).flatMap fun r =>
        (List.range cols).flatMap fun c =>
          let idx := r * cols + c
          (if c + 1 < cols then [(idx, idx + 1)] else []) ++
          (if r + 1 < rows then [(idx, idx + cols)] else []) }

/-- Result of circuit validation (`ValidationResult` dataclass). -/
structure ValidationResult where
  is_valid : Bool
  reasons : List String := []
  requires_transpilation : Bool := false
  transpilation_details : Option String := none
deriving DecidableEq, Repr

/-- `ValidationResult.valid()`. -/
def ValidationResult.valid : ValidationResult :=
  { is_valid := true }

/-- `ValidationResult.invalid(reasons)`. -/
def ValidationResult.invalid (reasons : List String) : ValidationResult :=
  { is_valid := false, reasons := reasons }

/-- `ValidationResult.needs_transpilation(details)`. -/
def ValidationResult.needs_transpilation (details : String) : ValidationResult :=
  { is_valid := false, requires_transpilation := true, transpilation_details := some details }

/-- Association-list update modelling `self._counts[bitstring] = value` on a
Python dict: replace the value at the first occurrence of the key, else append. -/
def updateAssoc : List (String × Int) → String → Int → List (String × Int)
  | [], k, v => [(k, v)]
  | (k', v') :: rest, k, v =>
      if k' = k then (k', v) :: rest else (k', v') :: updateAssoc rest k v

/-- Association-list read modelling `self._counts.get(bitstring, 0)`. -/
def getAssoc : List (String × Int) → String → Int
  | [], _ => 0
  | (k, v) :: rest, s => if k = s then v else getAssoc rest s

/-- Measurement counts (`Counts` dataclass): `_counts` models the Python dict
`dict[str, int]` as an association list in insertion order. -/
structure Counts where
  _counts : List (String × Int) := []
deriving DecidableEq, Repr

/-- `Counts.get`: `self._counts.get(bitstring, 0)`. -/
def Counts.get (c : Counts) (bitstring : String) : Int :=
  getAssoc c._counts bitstring

/-- `Counts.insert`: `self._counts[bitstring] = self._counts.get(bitstring, 0) + count`. -/
def Counts.insert (c : Counts) (bitstring : String) (count : Int) : Counts :=
  ⟨updateAssoc c._counts bitstring (c.get bitstring + count)⟩

/-- `Counts.total_shots`: `sum(self._counts.values())`. -/
def Counts.total_shots (c : Counts) : Int :=
  (c._counts.map Prod.snd).sum

/-- `Counts.most_frequent`: `None` on an empty dict, else
`max(self._counts.items(), key=lambda x: x[1])` — the Python `max` keeps the
first item seen and replaces it only on a strictly greater key. -/
def Counts.most_frequent (c : Counts) : Option (String × Int) :=
  match c._counts with
  | [] => none
  | x :: xs => some (xs.foldl (fun best p => if p.2 > best.2 then p else best) x)

/-- `Counts.probabilities`: empty map when `total_shots() == 0`, else
`{k: v / total for k, v in self._counts.items()}` (division modelled in `Rat`). -/
def Counts.probabilities (c : Counts) : List (String × Rat) :=
  let total := c.total_shots
  if total = 0 then []
  else c._counts.map fun p => (p.1, (p.2 : Rat) / (total : Rat))

/-- Result of circuit execution (`ExecutionResult` dataclass); `metadata` is an
opaque optional payload the contract never inspects. -/
structure ExecutionResult where
  counts : Counts
  shots : Int
  execution_time_ms : Option Int := none
  metadata : Option Unit := none
deriving DecidableEq, Repr

/-- `ExecutionResult.probabilities`: `self.counts.probabilities()`. -/
def ExecutionResult.probabilities (r : ExecutionResult) : List (String × Rat) :=
  r.counts.probabilities

/-- `ExecutionResult.most_frequent`: `None` when `total == 0` or the counts
are empty, else the most frequent bitstring with `count / total`. -/
def ExecutionResult.most_frequent (r : ExecutionResult) : Option (String × Rat) :=
  let total := r.counts.total_shots
  if total = 0 then none
  else
    match r.counts.most_frequent with
    | none => none
    | some (bitstring, count) => some (bitstring, (count : Rat) / (total : Rat))

/-- Outcome of the default `Backend.wait` loop: the returned
`result(jobId)` value, or one of the raised errors `JobFailedError`,
`JobCancelledError`, `TimeoutError`. -/
inductive WaitOutcome (α : Type) where
  | ok (r : α)
  | jobFailed
  | jobCancelled
  | timeout
deriving DecidableEq, Repr

/-- Body of the `for _ in range(600)` loop in `Backend.wait`: `fuel` is the number
of loop iterations left and `i` the index of the current poll, so `status i`
is what the i-th call of `status(jobId)` returns and `result` what
`result(jobId)` returns. Running out of fuel raises `TimeoutError`. -/
def waitAux (status : Nat → JobStatus) (result : α) : Nat → Nat → WaitOutcome α
  | 0, _ => .timeout
  | fuel + 1, i =>
      match status i with
      | .COMPLETED => .ok result
      | .FAILED => .jobFailed
      | .CANCELLED => .jobCancelled
      | _ => waitAux status result fuel (i + 1)

/-- `Backend.wait(job_id)`: poll `status(job_id)` up to 600 times, returning
`result(job_id)` on COMPLETED, raising on FAILED/CANCELLED, and raising
`TimeoutError` after 600 non-terminal polls. -/
def Backend.wait (status : Nat → JobStatus) (result : α) : WaitOutcome α :=
  waitAux status result 600 0

/-- Instrumentation of the same loop: the poll index right after which
`await self.result(job_id)` is invoked, `none` when `result` is never invoked
(the loop raises instead of returning). -/
def waitCallAux (status : Nat → JobStatus) : Nat → Nat → Option Nat
  | 0, _ => none
  | fuel + 1, i =>
      match status i with
      | .COMPLETED => some i
      | .FAILED => none
      | .CANCELLED => none
      | _ => waitCallAux status fuel (i + 1)

/-- The poll index after which the default `Backend.wait` calls
`result(job_id)`, `none` when it never does. -/
def Backend.waitResultCall (status : Nat → JobStatus) : Option Nat :=
  waitCallAux status 600 0

/-! Helper lemmas. -/

theorem getAssoc_updateAssoc (l : List (String × Int)) (s : String) (v : Int) :
    getAssoc (updateAssoc l s v) s = v := by
  induction l with
  | nil => simp [updateAssoc, getAssoc]
  | cons p rest ih =>
      obtain ⟨k, w⟩ := p
      by_cases hk : k = s
      · simp [updateAssoc, getAssoc, hk]
      · simp [updateAssoc, getAssoc, hk, ih]

theorem Counts.get_insert (c : Counts) (s : String) (n : Int) :
    (c.insert s n).get s = c.get s + n := by
  simp [Counts.insert, Counts.get, getAssoc_updateAssoc]

theorem mem_ite_nil {α : Type} (p : Prop) [Decidable p] (x a : α) :
    (a ∈ if p then [x] else []) ↔ p ∧ a = x := by
  split <;> simp_all

/-! Claim theorems. -/

/-- C2: for every `JobStatus` value `s`, `s.is_terminal` holds exactly for
COMPLETED, FAILED and CANCELLED, `s.is_pending` exactly for QUEUED and
RUNNING, and `s.is_success` exactly for COMPLETED. -/
theorem jobStatus_predicates (s : JobStatus) :
    (s.is_terminal = true ↔ s = .COMPLETED ∨ s = .FAILED ∨ s = .CANCELLED) ∧
    (s.is_pending = true ↔ s = .QUEUED ∨ s = .RUNNING) ∧
    (s.is_success = true ↔ s = .COMPLETED) := by
  cases s <;> decide

/-- C3: `Counts.insert` is additive — inserting `m` then `n` for the same
bitstring adds `m + n` to `get`, `total_shots` is the sum of the stored counts,
and the concrete example `insert("101", 3); insert("101", 2)` on an empty
`Counts` yields `get("101") == 5` and `total_shots() == 5`. -/
theorem counts_insert_additive (c : Counts) (s : String) (m n : Int) :
    ((c.insert s m).insert s n).get s = c.get s + m + n ∧
    c.total_shots = (c._counts.map Prod.snd).sum ∧
    (Counts.insert (Counts.insert ⟨[]⟩ "101" 3) "101" 2).get "101" = 5 ∧
    (Counts.insert (Counts.insert ⟨[]⟩ "101" 3) "101" 2).total_shots = 5 := by
  refine ⟨?_, rfl, by decide, by decide⟩
  rw [Counts.get_insert, Counts.get_insert]

/-- C4: `Counts.probabilities` never divides by zero — it returns the empty
map when `total_shots()` is 0, and otherwise maps each stored bitstring to
its count divided by `total_shots()`. -/
theorem counts_probabilities_safe (c : Counts) :
    (c.total_shots = 0 → c.probabilities = []) ∧
    (c.total_shots ≠ 0 →
      c.probabilities =
        c._counts.map fun p => (p.1, (p.2 : Rat) / (c.total_shots : Rat))) := by
  unfold Counts.probabilities
  constructor <;> intro h <;> simp [h]

/-- C5: `GateSet.contains` is membership in any arity bucket; `is_native`
equals membership in `native` when `native` is non-empty and falls back to
`contains` when `native` is empty; `GateSet.iqm().is_native("cz")` is true
and `GateSet.universal().is_native("cz")` equals
`GateSet.universal().contains("cz")`, which is true. -/
theorem gateSet_contains_is_native (g : GateSet) (s : String) :
    (g.contains s = true ↔ s ∈ g.single_qubit ∨ s ∈ g.two_qubit ∨ s ∈ g.three_qubit) ∧
    (g.native = [] → g.is_native s = g.contains s) ∧
    (g.native ≠ [] → (g.is_native s = true ↔ s ∈ g.native)) ∧
    GateSet.iqm.is_native "cz" = true ∧
    GateSet.universal.is_native "cz" = GateSet.universal.contains "cz" ∧
    GateSet.universal.contains "cz" = true := by
  refine ⟨?_, ?_, ?_, by decide, by decide, by decide⟩
  · simp [GateSet.contains, or_assoc]
  · intro h; simp [GateSet.is_native, h]
  · intro h; simp [GateSet.is_native, List.isEmpty_iff, h]

/-- C6: the edges of `Topology.grid(rows, cols)` are exactly the
right-neighbor edges (`c + 1 < cols`) and down-neighbor edges
(`r + 1 < rows`) of each node `(r, c)` with index `r * cols + c` — no
wraparound and no diagonals; in particular `grid(2, 2)` connects 0–1 and
0–2 but not 0–3. -/
theorem topology_grid_edges (rows cols a b : Nat) :
    ((a, b) ∈ (Topology.grid rows cols).edges ↔
      ∃ r c, r < rows ∧ c < cols ∧ a = r * cols + c ∧
        ((c + 1 < cols ∧ b = a + 1) ∨ (r + 1 < rows ∧ b = a + cols))) ∧
    (Topology.grid 2 2).is_connected 0 1 = true ∧
    (Topology.grid 2 2).is_connected 0 2 = true ∧
    (Topology.grid 2 2).is_connected 0 3 = false := by
  refine ⟨?_, by decide, by decide, by decide⟩
  simp only [Topology.grid, List.mem_flatMap, List.mem_range, List.mem_append,
    mem_ite_nil, Prod.mk.injEq]
  constructor
  · rintro ⟨r, hr, c, hc, ⟨h1, ha, hb⟩ | ⟨h1, ha, hb⟩⟩
    · exact ⟨r, c, hr, hc, ha, Or.inl ⟨h1, by omega⟩⟩
    · exact ⟨r, c, hr, hc, ha, Or.inr ⟨h1, by omega⟩⟩
  · rintro ⟨r, c, hr, hc, ha, ⟨h1, hb⟩ | ⟨h1, hb⟩⟩
    · exact ⟨r, hr, c, hc, Or.inl ⟨h1, ha, by omega⟩⟩
    · exact ⟨r, hr, c, hc, Or.inr ⟨h1, ha, by omega⟩⟩

/-- C7: `Topology.is_connected` is symmetric, because it checks both
orientations of every edge in the edge list. -/
theorem topology_is_connected_symm (t : Topology) (a b : Nat) :
    t.is_connected a b = t.is_connected b a := by
  unfold Topology.is_connected
  induction t.edges with
  | nil => rfl
  | cons e es ih =>
      simp only [List.any_cons, ih]
      congr 1
      exact Bool.or_comm _ _

/-- C9: `ValidationResult.needs_transpilation(x)` yields `is_valid == False`,
`requires_transpilation == True` and `transpilation_details == x`. -/
theorem validationResult_needs_transpilation (x : String) :
    (ValidationResult.needs_transpilation x).is_valid = false ∧
    (ValidationResult.needs_transpilation x).requires_transpilation = true ∧
    (ValidationResult.needs_transpilation x).transpilation_details = some x :=
  ⟨rfl, rfl, rfl⟩


theorem waitAux_succ (status : Nat → JobStatus) (result : α) (fuel i : Nat) :
    waitAux status result (fuel + 1) i =
      match status i with
      | .COMPLETED => .ok result
      | .FAILED => .jobFailed
      | .CANCELLED => .jobCancelled
      | _ => waitAux status result fuel (i + 1) := rfl

theorem forall_lt_succ_shift (P : Nat → Prop) (n : Nat) :
    (∀ k, k < n + 1 → P k) ↔ P 0 ∧ ∀ k, k < n → P (k + 1) := by
  constructor
  · intro h
    exact ⟨h 0 (by omega), fun k hk => h (k + 1) (by omega)⟩
  · rintro ⟨h0, h⟩ k hk
    cases k with
    | zero => exact h0
    | succ k => exact h k (by omega)

theorem waitAux_timeout_iff (status : Nat → JobStatus) (result : α) :
    ∀ fuel i, (waitAux status result fuel i = .timeout ↔
      ∀ k, k < fuel → (status (i + k)).is_terminal = false) := by
  intro fuel
  induction fuel with
  | zero => intro i; simp [waitAux]
  | succ fuel ih =>
      intro i
      rw [waitAux_succ, forall_lt_succ_shift]
      have e : ∀ k : Nat, i + 1 + k = i + (k + 1) := fun k => by omega
      cases hs : status i
      case QUEUED =>
          dsimp only
          rw [ih (i + 1)]
          simp only [e, Nat.add_zero, hs]
          simp [JobStatus.is_terminal]
      case RUNNING =>
          dsimp only
          rw [ih (i + 1)]
          simp only [e, Nat.add_zero, hs]
          simp [JobStatus.is_terminal]
      case COMPLETED =>
          dsimp only
          simp only [Nat.add_zero, hs]
          simp [JobStatus.is_terminal]
      case FAILED =>
          dsimp only
          simp only [Nat.add_zero, hs]
          simp [JobStatus.is_terminal]
      case CANCELLED =>
          dsimp only
          simp only [Nat.add_zero, hs]
          simp [JobStatus.is_terminal]


theorem exists_lt_succ_shift (P : Nat → Prop) (n : Nat) :
    (∃ k, k < n + 1 ∧ P k) ↔ P 0 ∨ ∃ k, k < n ∧ P (k + 1) := by
  constructor
  · rintro ⟨k, hk, hP⟩
    cases k with
    | zero => exact Or.inl hP
    | succ k => exact Or.inr ⟨k, by omega, hP⟩
  · rintro (h0 | ⟨k, hk, hP⟩)
    · exact ⟨0, by omega, h0⟩
    · exact ⟨k + 1, by omega, hP⟩

theorem waitAux_ok_iff (status : Nat → JobStatus) (result : α) :
    ∀ fuel i, (waitAux status result fuel i = .ok result ↔
      ∃ k, k < fuel ∧ status (i + k) = .COMPLETED ∧
        ∀ j, j < k → status (i + j) ≠ .FAILED ∧ status (i + j) ≠ .CANCELLED) := by
  intro fuel
  induction fuel with
  | zero => intro i; simp [waitAux]
  | succ fuel ih =>
      intro i
      rw [waitAux_succ, exists_lt_succ_shift]
      have e : ∀ k : Nat, i + 1 + k = i + (k + 1) := fun k => by omega
      cases hs : status i
      case QUEUED =>
          dsimp only
          rw [ih (i + 1)]
          simp only [e, Nat.add_zero, hs, forall_lt_succ_shift]
          simp
      case RUNNING =>
          dsimp only
          rw [ih (i + 1)]
          simp only [e, Nat.add_zero, hs, forall_lt_succ_shift]
          simp
      case COMPLETED =>
          dsimp only
          simp only [Nat.add_zero, hs, forall_lt_succ_shift]
          simp
      case FAILED =>
          dsimp only
          simp only [Nat.add_zero, hs, forall_lt_succ_shift]
          simp
      case CANCELLED =>
          dsimp only
          simp only [Nat.add_zero, hs, forall_lt_succ_shift]
          simp

theorem waitAux_failed_iff (status : Nat → JobStatus) (result : α) :
    ∀ fuel i, (waitAux status result fuel i = .jobFailed ↔
      ∃ k, k < fuel ∧ status (i + k) = .FAILED ∧
        ∀ j, j < k → (status (i + j)).is_terminal = false) := by
  intro fuel
  induction fuel with
  | zero => intro i; simp [waitAux]
  | succ fuel ih =>
      intro i
      rw [waitAux_succ, exists_lt_succ_shift]
      have e : ∀ k : Nat, i + 1 + k = i + (k + 1) := fun k => by omega
      cases hs : status i
      case QUEUED =>
          dsimp only
          rw [ih (i + 1)]
          simp only [e, Nat.add_zero, hs, forall_lt_succ_shift]
          simp [JobStatus.is_terminal]
      case RUNNING =>
          dsimp only
          rw [ih (i + 1)]
          simp only [e, Nat.add_zero, hs, forall_lt_succ_shift]
          simp [JobStatus.is_terminal]
      case COMPLETED =>
          dsimp only
          simp only [Nat.add_zero, hs, forall_lt_succ_shift]
          simp [JobStatus.is_terminal]
      case FAILED =>
          dsimp only
          simp only [Nat.add_zero, hs, forall_lt_succ_shift]
          simp [JobStatus.is_terminal]
      case CANCELLED =>
          dsimp only
          simp only [Nat.add_zero, hs, forall_lt_succ_shift]
          simp [JobStatus.is_terminal]

theorem waitAux_cancelled_iff (status : Nat → JobStatus) (result : α) :
    ∀ fuel i, (waitAux status result fuel i = .jobCancelled ↔
      ∃ k, k < fuel ∧ status (i + k) = .CANCELLED ∧
        ∀ j, j < k → (status (i + j)).is_terminal = false) := by
  intro fuel
  induction fuel with
  | zero => intro i; simp [waitAux]
  | succ fuel ih =>
      intro i
      rw [waitAux_succ, exists_lt_succ_shift]
      have e : ∀ k : Nat, i + 1 + k = i + (k + 1) := fun k => by omega
      cases hs : status i
      case QUEUED =>
          dsimp only
          rw [ih (i + 1)]
          simp only [e, Nat.add_zero, hs, forall_lt_succ_shift]
          simp [JobStatus.is_terminal]
      case RUNNING =>
          dsimp only
          rw [ih (i + 1)]
          simp only [e, Nat.add_zero, hs, forall_lt_succ_shift]
          simp [JobStatus.is_terminal]
      case COMPLETED =>
          dsimp only
          simp only [Nat.add_zero, hs, forall_lt_succ_shift]
          simp [JobStatus.is_terminal]
      case FAILED =>
          dsimp only
          simp only [Nat.add_zero, hs, forall_lt_succ_shift]
          simp [JobStatus.is_terminal]
      case CANCELLED =>
          dsimp only
          simp only [Nat.add_zero, hs, forall_lt_succ_shift]
          simp [JobStatus.is_terminal]


theorem JobStatus.pending_iff_not_terminal (s : JobStatus) :
    s.is_pending = true ↔ s.is_terminal = false := by
  cases s <;> decide

/-- C1: the default `wait` returns the value of `result(jobId)` iff some poll
among the first 600 returns COMPLETED before any poll returns FAILED or
CANCELLED; it fails with JobFailed (resp. JobCancelled) exactly when the
first terminal status observed within the 600 polls is FAILED (resp.
CANCELLED); and it fails with Timeout exactly when all 600 polls return a
non-terminal status (QUEUED or RUNNING). -/
theorem wait_characterization {α : Type} (status : Nat → JobStatus) (result : α) :
    (Backend.wait status result = .ok result ↔
      ∃ k, k < 600 ∧ status k = .COMPLETED ∧
        ∀ j, j < k → status j ≠ .FAILED ∧ status j ≠ .CANCELLED) ∧
    (Backend.wait status result = .jobFailed ↔
      ∃ k, k < 600 ∧ status k = .FAILED ∧
        ∀ j, j < k → (status j).is_terminal = false) ∧
    (Backend.wait status result = .jobCancelled ↔
      ∃ k, k < 600 ∧ status k = .CANCELLED ∧
        ∀ j, j < k → (status j).is_terminal = false) ∧
    (Backend.wait status result = .timeout ↔
      ∀ k, k < 600 → (status k).is_pending = true) := by
  refine ⟨?_, ?_, ?_, ?_⟩
  · have h := waitAux_ok_iff status result 600 0
    simpa [Backend.wait] using h
  · have h := waitAux_failed_iff status result 600 0
    simpa [Backend.wait] using h
  · have h := waitAux_cancelled_iff status result 600 0
    simpa [Backend.wait] using h
  · have h := waitAux_timeout_iff status result 600 0
    simp only [Nat.zero_add] at h
    rw [Backend.wait, h]
    simp only [JobStatus.pending_iff_not_terminal]

theorem waitCallAux_succ (status : Nat → JobStatus) (fuel i : Nat) :
    waitCallAux status (fuel + 1) i =
      match status i with
      | .COMPLETED => some i
      | .FAILED => none
      | .CANCELLED => none
      | _ => waitCallAux status fuel (i + 1) := rfl

theorem waitCallAux_some (status : Nat → JobStatus) :
    ∀ fuel i k, waitCallAux status fuel i = some k → status k = .COMPLETED := by
  intro fuel
  induction fuel with
  | zero => intro i k h; simp [waitCallAux] at h
  | succ fuel ih =>
      intro i k h
      rw [waitCallAux_succ] at h
      cases hs : status i <;> rw [hs] at h
      case COMPLETED =>
          cases h
          exact hs
      case FAILED => cases h
      case CANCELLED => cases h
      case QUEUED => exact ih (i + 1) k h
      case RUNNING => exact ih (i + 1) k h

theorem waitCallAux_none (status : Nat → JobStatus) :
    ∀ fuel i, (∀ j, i ≤ j → j < i + fuel → status j ≠ .COMPLETED) →
      waitCallAux status fuel i = none := by
  intro fuel
  induction fuel with
  | zero => intro i _; rfl
  | succ fuel ih =>
      intro i h
      rw [waitCallAux_succ]
      cases hs : status i
      case COMPLETED => exact absurd hs (h i (by omega) (by omega))
      case FAILED => rfl
      case CANCELLED => rfl
      case QUEUED => exact ih (i + 1) fun j h1 h2 => h j (by omega) (by omega)
      case RUNNING => exact ih (i + 1) fun j h1 h2 => h j (by omega) (by omega)

theorem waitCallAux_none_iff (status : Nat → JobStatus) (result : α) :
    ∀ fuel i, (waitCallAux status fuel i = none ↔
      waitAux status result fuel i ≠ .ok result) := by
  intro fuel
  induction fuel with
  | zero => intro i; simp [waitCallAux, waitAux]
  | succ fuel ih =>
      intro i
      rw [waitCallAux_succ, waitAux_succ]
      cases hs : status i
      case COMPLETED => simp
      case FAILED => simp
      case CANCELLED => simp
      case QUEUED => exact ih (i + 1)
      case RUNNING => exact ih (i + 1)

/-- C10: the default `wait` calls `result(jobId)` only right after a poll of
`status(jobId)` returned COMPLETED, and when no poll among the 600 returns
COMPLETED, `result` is never invoked — so `wait` respects the precondition
of `result`, that it is only valid on a COMPLETED job. -/
theorem wait_result_precondition {α : Type} (status : Nat → JobStatus) (result : α) :
    (∀ k, Backend.waitResultCall status = some k → status k = .COMPLETED) ∧
    ((∀ i, i < 600 → status i ≠ .COMPLETED) → Backend.waitResultCall status = none) ∧
    (Backend.waitResultCall status = none ↔ Backend.wait status result ≠ .ok result) := by
  refine ⟨?_, ?_, ?_⟩
  · intro k h
    exact waitCallAux_some status 600 0 k h
  · intro h
    exact waitCallAux_none status 600 0 fun j h1 h2 => h j (by omega)
  · exact waitCallAux_none_iff status result 600 0


theorem foldl_max_mem (xs : List (String × Int)) (x : String × Int) :
    xs.foldl (fun best p => if p.2 > best.2 then p else best) x ∈ x :: xs := by
  induction xs generalizing x with
  | nil => simp
  | cons p ps ih =>
      simp only [List.foldl_cons]
      rcases List.mem_cons.mp (ih (if p.2 > x.2 then p else x)) with h1 | h1
      · rw [h1]
        split
        · exact List.mem_cons_of_mem _ (List.mem_cons_self _ _)
        · exact List.mem_cons_self _ _
      · exact List.mem_cons_of_mem _ (List.mem_cons_of_mem _ h1)

theorem foldl_max_ge (xs : List (String × Int)) (x : String × Int) :
    ∀ q ∈ x :: xs, q.2 ≤ (xs.foldl (fun best p => if p.2 > best.2 then p else best) x).2 := by
  induction xs generalizing x with
  | nil =>
      intro q hq
      rw [List.mem_singleton.mp hq]
      exact le_refl _
  | cons p ps ih =>
      intro q hq
      simp only [List.foldl_cons]
      have hx : x.2 ≤ (if p.2 > x.2 then p else x).2 := by split <;> omega
      have hp : p.2 ≤ (if p.2 > x.2 then p else x).2 := by split <;> omega
      have hstep := ih (if p.2 > x.2 then p else x)
      rcases List.mem_cons.mp hq with h | h
      · rw [h]
        exact le_trans hx (hstep _ (List.mem_cons_self _ _))
      · rcases List.mem_cons.mp h with h2 | h2
        · rw [h2]
          exact le_trans hp (hstep _ (List.mem_cons_self _ _))
        · exact hstep q (List.mem_cons_of_mem _ h2)

/-- C8: `ExecutionResult.most_frequent` returns `None` when `total_shots()`
is 0 (also when the counts map is empty), and otherwise returns a pair of a
stored bitstring with maximal count and that count divided by
`total_shots()`. -/
theorem executionResult_most_frequent (r : ExecutionResult) :
    (r.counts.total_shots = 0 → r.most_frequent = none) ∧
    (r.counts._counts = [] → r.most_frequent = none) ∧
    (r.counts.total_shots ≠ 0 →
      ∃ b cnt, r.counts.most_frequent = some (b, cnt) ∧
        (b, cnt) ∈ r.counts._counts ∧
        (∀ p ∈ r.counts._counts, p.2 ≤ cnt) ∧
        r.most_frequent = some (b, (cnt : Rat) / (r.counts.total_shots : Rat))) := by
  refine ⟨?_, ?_, ?_⟩
  · intro h
    simp [ExecutionResult.most_frequent, h]
  · intro h
    simp [ExecutionResult.most_frequent, Counts.total_shots, h]
  · intro h
    cases hc : r.counts._counts with
    | nil =>
        exact absurd (by simp [Counts.total_shots, hc]) h
    | cons x xs =>
        refine ⟨(xs.foldl (fun best p => if p.2 > best.2 then p else best) x).1,
                (xs.foldl (fun best p => if p.2 > best.2 then p else best) x).2,
                ?_, ?_, ?_, ?_⟩
        · simp [Counts.most_frequent, hc]
        · simpa using foldl_max_mem xs x
        · exact foldl_max_ge xs x
        · simp [ExecutionResult.most_frequent, Counts.most_frequent, hc, h]

end HalContract
